import Mathlib

/-!
Shallow embedding of `src/processor.rs` from the waveform-rs repository.

The three-stage pipeline (decode → block-reduce → normalize) is modelled over
exact rationals `ℚ` standing in for the program's `f32` values: the claims under
study concern ordering, membership, sign, block structure and control flow, all
of which the exact model shares with the floating-point code on the concrete
inputs used below (every concrete evaluation in this file involves only values
that are exactly representable in `f32`, so the rational computation coincides
with the floating-point one there).

The symphonia decoding collaborator is external to the repository; `read_sample`
drives it through a narrow interface (probe → track list, decoder construction,
a stream of packet/decode outcomes).  That interface is modelled as input data
(`MediaInput`), and `read_sample` itself is translated line by line from the
source.  Rust panics (`.expect`, `.unwrap`, division by zero, `par_chunks(0)`)
are modelled explicitly: `filter_data`/`filter_data_v2` return `none` exactly
when the Rust code panics, and `RustResult.panic` records a panic of the call.
-/

namespace Waveform

/-- Outcome of a Rust function call: normal return, `Err` value, or panic.
A panic aborts the process; it is distinct from returning an error value. -/
inductive RustResult (α : Type) where
  | ok (a : α)
  | err (e : String)
  | panic (msg : String)
deriving DecidableEq, Repr

/-- Codec marker `CODEC_TYPE_NULL` from symphonia (the null/unknown codec). -/
def CODEC_TYPE_NULL : Nat := 0

/-- A track as seen through `track.id` and `track.codec_params`
(`codec`, `sample_rate`) — the only fields `read_sample` consults. -/
structure Track where
  id : Nat
  codec : Nat
  sampleRate : Option Nat
deriving DecidableEq, Repr

/-- Outcome of `decoder.decode(&packet)` for one packet: a decoded frame
(its channel count, its `capacity()`, and the interleaved samples that
`process_audio_buffer` would append), an I/O error, or another decode error. -/
inductive DecodeEvent where
  | ok (channels : Nat) (capacity : Nat) (samples : List ℚ)
  | ioError
  | otherError (msg : String)
deriving DecidableEq, Repr

/-- Outcome of one `format.next_packet()` call: a packet (carrying its track id
and what decoding it would yield), `Error::ResetRequired`, `Error::IoError`
(end of stream), or another format error. -/
inductive PacketEvent where
  | packet (trackId : Nat) (dec : DecodeEvent)
  | resetRequired
  | ioError
  | otherError (msg : String)
deriving DecidableEq, Repr

/-- Result of probing: the container's tracks and the packet stream. -/
structure ProbedFormat where
  tracks : List Track
  packets : List PacketEvent
deriving DecidableEq, Repr

/-- One input byte stream, as seen through the decoding collaborator's
interface: the probe outcome and the decoder-construction outcome. -/
structure MediaInput where
  probe : Except String ProbedFormat
  decoderBuild : Except String Unit
deriving Repr

/-- Model of `process_audio_buffer`: convert the frame to interleaved samples
and append them to the accumulated buffer (the conversion itself is the
collaborator's; the appended sample list is carried by the `DecodeEvent`). -/
def process_audio_buffer (samples : List ℚ) (audio_buffer : List ℚ) : List ℚ :=
  audio_buffer ++ samples

/-- The packet loop of `read_sample` (processor.rs lines 77–111).  The event
list models successive `next_packet`; running off its end is the same as an
end-of-stream I/O error (both break the loop with the accumulated state).
Returns the accumulated `sample_count` and `audio_buffer`, or the loop's
error. -/
def readLoop (trackId : Nat) : List PacketEvent → Nat → List ℚ → Except String (Nat × List ℚ)
  | [], count, buf => .ok (count, buf)
  | .resetRequired :: _, _, _ => .error "Reset required, not implemented"
  | .ioError :: _, count, buf => .ok (count, buf)
  | .otherError e :: _, _, _ => .error ("Error reading packet: " ++ e)
  | .packet tid dec :: rest, count, buf =>
    if tid ≠ trackId then readLoop trackId rest count buf
    else
      match dec with
      | .ok channels capacity samples =>
        if channels > 2 then .error "More than two channels not supported"
        else readLoop trackId rest (count + capacity) (process_audio_buffer samples buf)
      | .ioError => .ok (count, buf)
      | .otherError e => .error ("Error decoding packet: " ++ e)

/-- Model of `read_sample` (processor.rs lines 44–116).  Panics are recorded:
`.expect("no supported audio tracks")` on line 65 and
`track.codec_params.sample_rate.unwrap()` on line 75. -/
def read_sample (input : MediaInput) : RustResult (List ℚ × ℚ) :=
  match input.probe with
  | .error e => .err ("Error while probing format: " ++ e)
  | .ok format =>
    match format.tracks.find? (fun t => t.codec != CODEC_TYPE_NULL) with
    | none => .panic "no supported audio tracks"
    | some track =>
      match input.decoderBuild with
      | .error e => .err ("Error while creating decoder: " ++ e)
      | .ok _ =>
        match track.sampleRate with
        | none => .panic "called Option::unwrap() on a None value"
        | some sample_rate =>
          match readLoop track.id format.packets 0 [] with
          | .error e => .err e
          | .ok (sample_count, audio_buffer) =>
            .ok (audio_buffer, (sample_count : ℚ) / (sample_rate : ℚ))

/-- Number of output samples `(duration * samples_per_second as f32).floor() as
usize` (lines 135–136 / 152–153): floor, saturating to 0 for negative values as
the Rust float-to-usize cast does.  (Saturation at `usize::MAX` is not
modelled; no claim involves such magnitudes.) -/
def targetSamples (duration : ℚ) (samples_per_second : Option Nat) : Nat :=
  (Rat.floor (duration * ((samples_per_second.getD 100 : Nat) : ℚ))).toNat

/-- Variant 1 block size (line 137): `audio_buffer.len() / samples`,
integer division with no guard. -/
def blockSize_v1 (audio_buffer : List ℚ) (duration : ℚ) (sps : Option Nat) : Nat :=
  audio_buffer.length / targetSamples duration sps

/-- Variant 2 block size (line 154): `max(1, audio_buffer.len() / samples)`. -/
def blockSize_v2 (audio_buffer : List ℚ) (duration : ℚ) (sps : Option Nat) : Nat :=
  max 1 (audio_buffer.length / targetSamples duration sps)

/-- Fuelled model of `slice::chunks(n)`: successive sub-slices of length `n`,
the last one possibly shorter.  The fuel is only a structural-termination
device; `rchunks` always supplies fuel `l.length`, which is enough because each
step consumes at least one element (for `n ≥ 1`). -/
def rchunksAux (n : Nat) : Nat → List ℚ → List (List ℚ)
  | 0, _ => []
  | _, [] => []
  | fuel + 1, x :: xs => (x :: xs).take n :: rchunksAux n fuel (xs.drop (n - 1))

/-- Model of `slice::chunks(n)` / `par_chunks(n)` for `n ≥ 1` (callers guard
`n = 0`, which in Rust is a panic, by returning `none` first). -/
def rchunks (n : Nat) (l : List ℚ) : List (List ℚ) :=
  rchunksAux n l.length l

/-- Variant 1 per-block summary (line 142): mean of absolute values,
`chunk.iter().map(|x| x.abs()).sum() / chunk.len()`. -/
def chunkMean (chunk : List ℚ) : ℚ :=
  (chunk.map (fun x => |x|)).sum / (chunk.length : ℚ)

/-- One step of `Iterator::max_by` with the comparison
`a.abs().partial_cmp(b.abs())` (line 162): keep the accumulator only when its
absolute value is strictly greater, i.e. on ties the later element wins, as
`core::cmp::max_by` returns its second argument when the comparison is equal. -/
def peakFold (a b : ℚ) : ℚ :=
  if |b| < |a| then a else b

/-- Variant 2 per-block summary (lines 158–163): the signed sample of greatest
absolute value, later samples winning ties; `unwrap_or(0.0)` for an empty
chunk. -/
def chunkPeak : List ℚ → ℚ
  | [] => 0
  | x :: xs => xs.foldl peakFold x

/-- Model of `filter_data` (lines 130–145).  `none` records a panic: division
by zero when `samples = 0` (line 137), or `par_chunks(0)` when
`block_size = 0` (line 140). -/
def filter_data (audio_buffer : List ℚ) (duration : ℚ) (sps : Option Nat) :
    Option (List ℚ) :=
  if targetSamples duration sps = 0 then none
  else if blockSize_v1 audio_buffer duration sps = 0 then none
  else some ((rchunks (blockSize_v1 audio_buffer duration sps) audio_buffer).map chunkMean)

/-- Model of `filter_data_v2` (lines 147–166).  `none` records the division by
zero when `samples = 0` (line 154); the block size itself is clamped to 1. -/
def filter_data_v2 (audio_buffer : List ℚ) (duration : ℚ) (sps : Option Nat) :
    Option (List ℚ) :=
  if targetSamples duration sps = 0 then none
  else some ((rchunks (blockSize_v2 audio_buffer duration sps) audio_buffer).map chunkPeak)

/-- Maximum entry of `filtered_data`, the reduce over `f32::max` seeded with
`f32::NEG_INFINITY` (lines 169–172): `none` for the empty list (where the Rust
value is `-∞`, finite-entry folding is `foldl max` from the first element). -/
def v1Max : List ℚ → Option ℚ
  | [] => none
  | x :: xs => some (xs.foldl max x)

/-- Variant 1 multiplier (lines 173–177): `1/max_value` unless `max_value` is
`0`.  On the empty list the Rust multiplier is `1.0 / NEG_INFINITY = -0.0`; it is never
applied there (the map is empty), and this model uses `1`. -/
def v1Multiplier (l : List ℚ) : ℚ :=
  match v1Max l with
  | none => 1
  | some m => if m ≠ 0 then 1 / m else 1

/-- Model of `normalize_data` (lines 168–179). -/
def normalize_data (filtered_data : List ℚ) : List ℚ :=
  filtered_data.map (fun n => n * v1Multiplier filtered_data)

/-- Maximum absolute entry, the reduce over `f32::max` of absolute values
seeded with `0.0` (lines 182–185). -/
def v2MaxAbs (l : List ℚ) : ℚ :=
  l.foldl (fun acc x => max acc |x|) 0

/-- Variant 2 multiplier (lines 187–191). -/
def v2Multiplier (l : List ℚ) : ℚ :=
  if v2MaxAbs l ≠ 0 then 1 / v2MaxAbs l else 1

/-- Model of `normalize_data_v2` (lines 181–194). -/
def normalize_data_v2 (filtered_data : List ℚ) : List ℚ :=
  filtered_data.map (fun n => n * v2Multiplier filtered_data)

/-- Model of `audio_to_waveform` (lines 16–26).  A `none` from `filter_data`
is a panic of the call (see `filter_data`). -/
def audio_to_waveform (data : MediaInput) (samples_per_second : Option Nat) :
    RustResult (List ℚ) :=
  match read_sample data with
  | .err e => .err e
  | .panic m => .panic m
  | .ok (audio_buffer, duration) =>
    match filter_data audio_buffer duration samples_per_second with
    | none => .panic "division by zero or zero chunk size in filter_data"
    | some filtered_data => .ok (normalize_data filtered_data)

/-- Model of `audio_to_waveform_v2` (lines 32–42). -/
def audio_to_waveform_v2 (data : MediaInput) (samples_per_second : Option Nat) :
    RustResult (List ℚ) :=
  match read_sample data with
  | .err e => .err e
  | .panic m => .panic m
  | .ok (audio_buffer, duration) =>
    match filter_data_v2 audio_buffer duration samples_per_second with
    | none => .panic "division by zero in filter_data_v2"
    | some filtered_data => .ok (normalize_data_v2 filtered_data)

/-- Concrete input: a mono track at 10 Hz declared sample rate whose single
packet decodes to ten samples of value 1, followed by end of stream. -/
def tenOnesInput : MediaInput where
  probe := .ok
    { tracks := [{ id := 0, codec := 1, sampleRate := some 10 }]
      packets := [PacketEvent.packet 0 (DecodeEvent.ok 1 10 [1, 1, 1, 1, 1, 1, 1, 1, 1, 1]),
                  PacketEvent.ioError] }
  decoderBuild := .ok ()

/-- Concrete input: a mono track at 1 Hz declared sample rate whose single
packet decodes to one sample of value 1 (duration 1 s, PCM length 1). -/
def onePulseInput : MediaInput where
  probe := .ok
    { tracks := [{ id := 0, codec := 1, sampleRate := some 1 }]
      packets := [PacketEvent.packet 0 (DecodeEvent.ok 1 1 [1]),
                  PacketEvent.ioError] }
  decoderBuild := .ok ()

/-- Ten PCM samples of value 1. -/
def tenOnes : List ℚ := [1, 1, 1, 1, 1, 1, 1, 1, 1, 1]

/-- Concrete input whose only track carries the null codec. -/
def nullCodecInput : MediaInput where
  probe := .ok
    { tracks := [{ id := 0, codec := CODEC_TYPE_NULL, sampleRate := some 44100 }]
      packets := [] }
  decoderBuild := .ok ()

/-- Concrete input whose track declares no sample rate. -/
def noRateInput : MediaInput where
  probe := .ok
    { tracks := [{ id := 0, codec := 1, sampleRate := none }]
      packets := [] }
  decoderBuild := .ok ()

/-! ### Helper lemmas about the chunking model -/

theorem rchunksAux_length (n : Nat) (hn : 0 < n) :
    ∀ (fuel : Nat) (l : List ℚ), l.length ≤ fuel →
      (rchunksAux n fuel l).length = (l.length + n - 1) / n := by
  intro fuel
  induction fuel with
  | zero =>
    intro l hl
    have hnil : l = [] := List.eq_nil_of_length_eq_zero (Nat.le_zero.mp hl)
    subst hnil
    simp [rchunksAux, Nat.div_eq_of_lt (by omega : n - 1 < n)]
  | succ fuel ih =>
    intro l hl
    match l with
    | [] => simp [rchunksAux, Nat.div_eq_of_lt (by omega : n - 1 < n)]
    | x :: xs =>
      have hdrop : (xs.drop (n - 1)).length ≤ fuel := by
        simp only [List.length_drop]
        have := hl
        simp only [List.length_cons] at this
        omega
      have hstep : (rchunksAux n (fuel + 1) (x :: xs)).length
          = (rchunksAux n fuel (xs.drop (n - 1))).length + 1 := by
        simp [rchunksAux]
      rw [hstep, ih _ hdrop]
      simp only [List.length_drop, List.length_cons]
      rcases Nat.lt_or_ge xs.length n with hL | hL
      · have e1 : xs.length - (n - 1) + n - 1 = n - 1 := by omega
        have e2 : xs.length + 1 + n - 1 = xs.length + n := by omega
        rw [e1, e2, Nat.div_eq_of_lt (by omega : n - 1 < n),
          Nat.add_div_right _ hn, Nat.div_eq_of_lt hL]
      · have e1 : xs.length - (n - 1) + n - 1 = xs.length := by omega
        have e2 : xs.length + 1 + n - 1 = xs.length + n := by omega
        rw [e1, e2, Nat.add_div_right _ hn]

theorem rchunksAux_ne_nil (n : Nat) (hn : 0 < n) :
    ∀ (fuel : Nat) (l : List ℚ), ∀ c ∈ rchunksAux n fuel l, c ≠ [] := by
  intro fuel
  induction fuel with
  | zero => intro l c hc; simp [rchunksAux] at hc
  | succ fuel ih =>
    intro l c hc
    match l with
    | [] => simp [rchunksAux] at hc
    | x :: xs =>
      simp only [rchunksAux, List.mem_cons] at hc
      rcases hc with hc | hc
      · subst hc
        obtain ⟨m, rfl⟩ := Nat.exists_eq_succ_of_ne_zero (Nat.pos_iff_ne_zero.mp hn)
        simp
      · exact ih _ _ hc

theorem rchunksAux_subset (n : Nat) :
    ∀ (fuel : Nat) (l : List ℚ), ∀ c ∈ rchunksAux n fuel l, ∀ y ∈ c, y ∈ l := by
  intro fuel
  induction fuel with
  | zero => intro l c hc; simp [rchunksAux] at hc
  | succ fuel ih =>
    intro l c hc y hy
    match l with
    | [] => simp [rchunksAux] at hc
    | x :: xs =>
      simp only [rchunksAux, List.mem_cons] at hc
      rcases hc with hc | hc
      · subst hc; exact List.take_subset _ _ hy
      · exact List.mem_cons_of_mem x (List.drop_subset _ _ (ih _ _ hc y hy))

theorem rchunks_length (n : Nat) (hn : 0 < n) (l : List ℚ) :
    (rchunks n l).length = (l.length + n - 1) / n :=
  rchunksAux_length n hn l.length l (Nat.le_refl _)

theorem rchunks_ne_nil (n : Nat) (hn : 0 < n) (l : List ℚ) :
    ∀ c ∈ rchunks n l, c ≠ [] :=
  rchunksAux_ne_nil n hn l.length l

theorem rchunks_subset (n : Nat) (l : List ℚ) :
    ∀ c ∈ rchunks n l, ∀ y ∈ c, y ∈ l :=
  rchunksAux_subset n l.length l

/-! ### Helper lemmas about the fold computing the Variant 1 maximum -/

theorem le_foldl_max_init (x : ℚ) (xs : List ℚ) : x ≤ xs.foldl max x := by
  induction xs generalizing x with
  | nil => exact le_refl x
  | cons y ys ih => exact le_trans (le_max_left x y) (ih (max x y))

theorem foldl_max_mem (x : ℚ) (xs : List ℚ) : xs.foldl max x ∈ x :: xs := by
  induction xs generalizing x with
  | nil => simp
  | cons y ys ih =>
    have h := ih (max x y)
    simp only [List.foldl_cons]
    rcases List.mem_cons.mp h with h | h
    · rcases max_choice x y with hm | hm <;> rw [hm] at h ⊢ <;> simp [h]
    · simp [h]

theorem le_foldl_max (x : ℚ) (xs : List ℚ) : ∀ y ∈ x :: xs, y ≤ xs.foldl max x := by
  induction xs generalizing x with
  | nil => intro y hy; simp at hy; simp [hy]
  | cons z zs ih =>
    intro y hy
    simp only [List.foldl_cons]
    rcases List.mem_cons.mp hy with hy | hy
    · subst hy
      exact le_trans (le_max_left y z) (le_foldl_max_init _ _)
    · rcases List.mem_cons.mp hy with hy | hy
      · subst hy
        exact le_trans (le_max_right x y) (le_foldl_max_init _ _)
      · exact ih (max x z) y (List.mem_cons_of_mem _ hy)

/-! ### Helper lemmas about the fold computing the Variant 2 maximum of
absolute values -/

theorem le_v2fold (a : ℚ) (l : List ℚ) :
    a ≤ l.foldl (fun acc x => max acc |x|) a := by
  induction l generalizing a with
  | nil => exact le_refl a
  | cons y ys ih => exact le_trans (le_max_left a |y|) (ih (max a |y|))

theorem abs_le_v2fold (a : ℚ) (l : List ℚ) :
    ∀ y ∈ l, |y| ≤ l.foldl (fun acc x => max acc |x|) a := by
  induction l generalizing a with
  | nil => intro y hy; simp at hy
  | cons z zs ih =>
    intro y hy
    simp only [List.foldl_cons]
    rcases List.mem_cons.mp hy with hy | hy
    · subst hy
      exact le_trans (le_max_right a |y|) (le_v2fold _ _)
    · exact ih (max a |z|) y hy

theorem v2fold_attained (a : ℚ) (l : List ℚ) :
    l.foldl (fun acc x => max acc |x|) a = a ∨
      ∃ y ∈ l, l.foldl (fun acc x => max acc |x|) a = |y| := by
  induction l generalizing a with
  | nil => exact Or.inl rfl
  | cons z zs ih =>
    simp only [List.foldl_cons]
    rcases ih (max a |z|) with h | ⟨y, hy, h⟩
    · rcases max_choice a |z| with hm | hm
      · exact Or.inl (h.trans hm)
      · exact Or.inr ⟨z, List.mem_cons_self _ _, h.trans hm⟩
    · exact Or.inr ⟨y, List.mem_cons_of_mem _ hy, h⟩

theorem v2MaxAbs_nonneg (l : List ℚ) : 0 ≤ v2MaxAbs l :=
  le_v2fold 0 l

theorem abs_le_v2MaxAbs (l : List ℚ) : ∀ y ∈ l, |y| ≤ v2MaxAbs l :=
  abs_le_v2fold 0 l

theorem v2MaxAbs_attained (l : List ℚ) (h : v2MaxAbs l ≠ 0) :
    ∃ y ∈ l, |y| = v2MaxAbs l := by
  rcases v2fold_attained 0 l with h0 | ⟨y, hy, hv⟩
  · exact absurd h0 h
  · exact ⟨y, hy, hv.symm⟩

theorem v2Multiplier_pos (l : List ℚ) : 0 < v2Multiplier l := by
  unfold v2Multiplier
  split
  · rename_i h
    have h0 := v2MaxAbs_nonneg l
    have : 0 < v2MaxAbs l := lt_of_le_of_ne h0 (Ne.symm h)
    positivity
  · exact one_pos

/-! ### Helper lemmas about the Variant 2 per-block peak -/

theorem peakFold_spec (x : ℚ) (xs : List ℚ) :
    (∀ y ∈ x :: xs, |y| ≤ |xs.foldl peakFold x|) ∧
    ∃ pre suf, x :: xs = pre ++ xs.foldl peakFold x :: suf ∧
      ∀ y ∈ suf, |y| < |xs.foldl peakFold x| := by
  induction xs using List.reverseRecOn with
  | nil => exact ⟨by simp, [], [], by simp, by simp⟩
  | append_singleton ys y ih =>
    obtain ⟨hle, pre, suf, hdecomp, hsuf⟩ := ih
    have hfold : (ys ++ [y]).foldl peakFold x = peakFold (ys.foldl peakFold x) y := by
      simp [List.foldl_append]
    by_cases hcase : |y| < |ys.foldl peakFold x|
    · have hpk : (ys ++ [y]).foldl peakFold x = ys.foldl peakFold x := by
        rw [hfold]; simp [peakFold, hcase]
      rw [hpk]
      constructor
      · intro z hz
        rcases List.mem_cons.mp hz with hz | hz
        · exact hle z (by simp [hz])
        · rcases List.mem_append.mp hz with hz | hz
          · exact hle z (by simp [hz])
          · simp at hz
            subst hz
            exact le_of_lt hcase
      · refine ⟨pre, suf ++ [y], ?_, ?_⟩
        · rw [← List.cons_append, hdecomp]
          simp
        · intro z hz
          rcases List.mem_append.mp hz with hz | hz
          · exact hsuf z hz
          · simp at hz; subst hz; exact hcase
    · have hpk : (ys ++ [y]).foldl peakFold x = y := by
        rw [hfold]; simp [peakFold, hcase]
      rw [hpk]
      have hy : |ys.foldl peakFold x| ≤ |y| := le_of_not_lt hcase
      constructor
      · intro z hz
        rcases List.mem_cons.mp hz with hz | hz
        · exact le_trans (hle z (by simp [hz])) hy
        · rcases List.mem_append.mp hz with hz | hz
          · exact le_trans (hle z (by simp [hz])) hy
          · simp at hz; subst hz; exact le_refl _
      · exact ⟨x :: ys, [], by simp, by simp⟩

theorem chunkPeak_spec (c : List ℚ) (hc : c ≠ []) :
    chunkPeak c ∈ c ∧ (∀ y ∈ c, |y| ≤ |chunkPeak c|) ∧
    ∃ pre suf, c = pre ++ chunkPeak c :: suf ∧ ∀ y ∈ suf, |y| < |chunkPeak c| := by
  match c with
  | [] => exact absurd rfl hc
  | x :: xs =>
    obtain ⟨hle, pre, suf, hdecomp, hsuf⟩ := peakFold_spec x xs
    have hpk : chunkPeak (x :: xs) = xs.foldl peakFold x := rfl
    rw [hpk]
    refine ⟨?_, hle, pre, suf, hdecomp, hsuf⟩
    rw [hdecomp]
    exact List.mem_append.mpr (Or.inr (List.mem_cons_self _ _))

/-! ### Helper lemmas about error-message strings -/

theorem string_data_append (s t : String) : (s ++ t).data = s.data ++ t.data := by
  cases s; cases t; rfl

theorem head_append (s t : String) (c : Char) (hs : s.data.head? = some c) :
    (s ++ t).data.head? = some c := by
  rw [string_data_append]
  cases hdata : s.data with
  | nil => rw [hdata] at hs; simp at hs
  | cons a as =>
    rw [hdata] at hs
    simp only [List.head?_cons, Option.some.injEq] at hs
    simp [hs]

theorem ne_of_data_head (s t : String) (c d : Char) (hs : s.data.head? = some c)
    (ht : t.data.head? = some d) (hcd : c ≠ d) : s ≠ t := by
  intro h
  rw [h, ht] at hs
  exact hcd (Option.some.inj hs).symm

theorem readPacketErr_ne (e : String) :
    "Error reading packet: " ++ e ≠ "More than two channels not supported" :=
  ne_of_data_head _ _ 'E' 'M' (head_append _ _ 'E' (by decide)) (by decide) (by decide)

theorem decodeErr_ne (e : String) :
    "Error decoding packet: " ++ e ≠ "More than two channels not supported" :=
  ne_of_data_head _ _ 'E' 'M' (head_append _ _ 'E' (by decide)) (by decide) (by decide)

/-! ### Claim theorems -/

/-- C1, counterexample: the ten-sample input decodes with duration 1 s; at rate
4 the target block count is floor(1 × 4) = 4, yet the Variant 1 pipeline
returns 5 values (block size 10 / 4 = 2 gives ceil(10 / 2) = 5 chunks), so the
output length does not equal floor(duration × rate). -/
theorem c1_counterexample :
    audio_to_waveform tenOnesInput (some 4) = .ok [1, 1, 1, 1, 1] ∧
    ([(1 : ℚ), 1, 1, 1, 1]).length = 5 ∧ targetSamples 1 (some 4) = 4 := by
  with_unfolding_all decide

/-- C1 (amended): whenever a reducer call returns (does not panic), the output
length is the number of chunks, ceil(pcm_len / block_size) — not
floor(duration × rate).  For Variant 1 the length is always at least the
target floor(duration × rate) (with equality exactly when the target divides
the PCM length); for Variant 2 it can also fall below the target. -/
theorem c1_block_count (buf : List ℚ) (d : ℚ) (sps : Option Nat) (out : List ℚ) :
    (filter_data buf d sps = some out →
      out.length = (buf.length + blockSize_v1 buf d sps - 1) / blockSize_v1 buf d sps ∧
      targetSamples d sps ≤ out.length) ∧
    (filter_data_v2 buf d sps = some out →
      out.length = (buf.length + blockSize_v2 buf d sps - 1) / blockSize_v2 buf d sps) := by
  constructor
  · intro h
    unfold filter_data at h
    by_cases ht : targetSamples d sps = 0
    · rw [if_pos ht] at h; exact absurd h (by simp)
    rw [if_neg ht] at h
    by_cases hb : blockSize_v1 buf d sps = 0
    · rw [if_pos hb] at h; exact absurd h (by simp)
    rw [if_neg hb] at h
    have hbpos : 0 < blockSize_v1 buf d sps := Nat.pos_of_ne_zero hb
    have hout : out = (rchunks (blockSize_v1 buf d sps) buf).map chunkMean :=
      (Option.some.inj h).symm
    subst hout
    rw [List.length_map, rchunks_length _ hbpos]
    refine ⟨rfl, ?_⟩
    rw [Nat.le_div_iff_mul_le hbpos]
    have h1 : blockSize_v1 buf d sps * targetSamples d sps ≤ buf.length := by
      unfold blockSize_v1
      exact Nat.div_mul_le_self _ _
    calc targetSamples d sps * blockSize_v1 buf d sps
        = blockSize_v1 buf d sps * targetSamples d sps := Nat.mul_comm _ _
      _ ≤ buf.length := h1
      _ ≤ buf.length + blockSize_v1 buf d sps - 1 := by omega
  · intro h
    unfold filter_data_v2 at h
    by_cases ht : targetSamples d sps = 0
    · rw [if_pos ht] at h; exact absurd h (by simp)
    rw [if_neg ht] at h
    have hbpos : 0 < blockSize_v2 buf d sps := by
      unfold blockSize_v2; omega
    have hout : out = (rchunks (blockSize_v2 buf d sps) buf).map chunkPeak :=
      (Option.some.inj h).symm
    subst hout
    rw [List.length_map, rchunks_length _ hbpos]

/-- C1, witness for the amended theorem at the concrete ten-sample input. -/
theorem c1_block_count_witness :
    ([(1 : ℚ), 1, 1, 1, 1]).length =
      (tenOnes.length + blockSize_v1 tenOnes 1 (some 4) - 1) /
        blockSize_v1 tenOnes 1 (some 4) ∧
    targetSamples 1 (some 4) ≤ ([(1 : ℚ), 1, 1, 1, 1]).length :=
  (c1_block_count tenOnes 1 (some 4) [1, 1, 1, 1, 1]).1 (by with_unfolding_all decide)

/-- C2: the code contradicts the claim.  With the one-sample decoded buffer
(duration 1 s) and rate 2, the target block count is 2 ≥ 1 = PCM length, so
`block_size = 1 / 2 = 0` and `par_chunks(0)` panics (modelled as `none` /
`RustResult.panic`); the call neither completes nor returns an error value. -/
theorem c2_zero_block_size_panics :
    filter_data [(1 : ℚ)] 1 (some 2) = none ∧
    audio_to_waveform onePulseInput (some 2)
      = .panic "division by zero or zero chunk size in filter_data" := by
  with_unfolding_all decide

/-- C3, counterexample: when every track carries the null codec the call does
not return an error value — the `.expect` on processor.rs line 65 panics with
"no supported audio tracks", which is a different termination channel than the
claimed error result. -/
theorem c3_counterexample :
    read_sample nullCodecInput = RustResult.panic "no supported audio tracks" := by
  with_unfolding_all decide

/-- C3 (amended): for every input that probes successfully and in which every
track's codec is the null marker, the call terminates by a panic carrying the
message "no supported audio tracks" (so no partial output is returned), rather
than by returning an error value. -/
theorem c3_all_null_tracks_panics (input : MediaInput) (fmt : ProbedFormat)
    (h1 : input.probe = .ok fmt)
    (h2 : ∀ t ∈ fmt.tracks, t.codec = CODEC_TYPE_NULL) :
    read_sample input = .panic "no supported audio tracks" := by
  have hfind : fmt.tracks.find? (fun t => t.codec != CODEC_TYPE_NULL) = none := by
    rw [List.find?_eq_none]
    intro t ht
    simp [h2 t ht]
  simp [read_sample, h1, hfind]

/-- C3, witness for the amended theorem at the concrete null-codec input. -/
theorem c3_null_tracks_witness :
    read_sample nullCodecInput = RustResult.panic "no supported audio tracks" :=
  c3_all_null_tracks_panics nullCodecInput
    { tracks := [{ id := 0, codec := CODEC_TYPE_NULL, sampleRate := some 44100 }]
      packets := [] }
    rfl (by decide)

/-- C9: if probing succeeds, a track with a recognized codec is found and the
decoder is built, but the track's codec parameters declare no sample rate, then
`read_sample` (line 75's `.unwrap()`) and hence both public entry points panic
instead of returning an error value. -/
theorem c9_missing_sample_rate_panics (input : MediaInput) (fmt : ProbedFormat)
    (track : Track) (sps : Option Nat)
    (h1 : input.probe = .ok fmt)
    (h2 : fmt.tracks.find? (fun t => t.codec != CODEC_TYPE_NULL) = some track)
    (h3 : input.decoderBuild = .ok ())
    (h4 : track.sampleRate = none) :
    read_sample input = .panic "called Option::unwrap() on a None value" ∧
    audio_to_waveform input sps = .panic "called Option::unwrap() on a None value" ∧
    audio_to_waveform_v2 input sps = .panic "called Option::unwrap() on a None value" := by
  have hrs : read_sample input = .panic "called Option::unwrap() on a None value" := by
    simp [read_sample, h1, h2, h3, h4]
  refine ⟨hrs, ?_, ?_⟩
  · unfold audio_to_waveform
    rw [hrs]
  · unfold audio_to_waveform_v2
    rw [hrs]

/-- C9, witness at the concrete no-declared-rate input. -/
theorem c9_witness :
    read_sample noRateInput = RustResult.panic "called Option::unwrap() on a None value" :=
  (c9_missing_sample_rate_panics noRateInput
    { tracks := [{ id := 0, codec := 1, sampleRate := none }], packets := [] }
    { id := 0, codec := 1, sampleRate := none } none rfl rfl rfl rfl).1

/-- C4, counterexample: in the block [1, -1] both samples tie on absolute
value; the first sample attaining the maximum is 1, but the reducer emits -1
(Rust's `max_by` keeps the last maximal element), so the claimed first-sample
tie-break is false. -/
theorem c4_counterexample :
    filter_data_v2 [(1 : ℚ), -1] 1 (some 1) = some [-1] ∧ ((-1 : ℚ) ≠ 1) := by
  with_unfolding_all decide

/-- C4 (amended): every block produced by the Variant 2 reducer is non-empty,
and its summary is the sample of the block with the greatest absolute value,
original sign retained; when several samples tie on absolute value the summary
is the LAST such sample in block order (every sample after it in the block has
strictly smaller absolute value), not the first. -/
theorem c4_peak_last_tiebreak (buf : List ℚ) (d : ℚ) (sps : Option Nat) (out : List ℚ)
    (hout : filter_data_v2 buf d sps = some out) :
    out = (rchunks (blockSize_v2 buf d sps) buf).map chunkPeak ∧
    ∀ c ∈ rchunks (blockSize_v2 buf d sps) buf,
      chunkPeak c ∈ c ∧ (∀ y ∈ c, |y| ≤ |chunkPeak c|) ∧
      ∃ pre suf, c = pre ++ chunkPeak c :: suf ∧ ∀ y ∈ suf, |y| < |chunkPeak c| := by
  have hbpos : 0 < blockSize_v2 buf d sps := by
    unfold blockSize_v2; omega
  constructor
  · unfold filter_data_v2 at hout
    by_cases ht : targetSamples d sps = 0
    · rw [if_pos ht] at hout; exact absurd hout (by simp)
    · rw [if_neg ht] at hout
      exact (Option.some.inj hout).symm
  · intro c hc
    exact chunkPeak_spec c (rchunks_ne_nil _ hbpos _ c hc)

/-- C4, witness for the amended theorem at the concrete tying block [1, -1]. -/
theorem c4_peak_witness : chunkPeak [(1 : ℚ), -1] ∈ [(1 : ℚ), -1] :=
  ((c4_peak_last_tiebreak [(1 : ℚ), -1] 1 (some 1) [-1]
      (by with_unfolding_all decide)).2
    [(1 : ℚ), -1] (by with_unfolding_all decide)).1

/-- C10: whenever the Variant 2 reducer returns, every emitted summary is
exactly one of the samples of its own block (hence of the PCM buffer) — no
summary is synthesized — and for the empty PCM buffer the summary sequence is
empty, so the 0.0 fallback for an empty chunk is never emitted. -/
theorem c10_no_synthesized_summary (buf : List ℚ) (d : ℚ) (sps : Option Nat)
    (out : List ℚ) (hout : filter_data_v2 buf d sps = some out) :
    (∀ y ∈ out, ∃ c ∈ rchunks (blockSize_v2 buf d sps) buf, y = chunkPeak c ∧ y ∈ c) ∧
    (∀ y ∈ out, y ∈ buf) ∧
    (buf = [] → out = []) := by
  have hbpos : 0 < blockSize_v2 buf d sps := by
    unfold blockSize_v2; omega
  have hmap : out = (rchunks (blockSize_v2 buf d sps) buf).map chunkPeak := by
    unfold filter_data_v2 at hout
    by_cases ht : targetSamples d sps = 0
    · rw [if_pos ht] at hout; exact absurd hout (by simp)
    · rw [if_neg ht] at hout
      exact (Option.some.inj hout).symm
  refine ⟨?_, ?_, ?_⟩
  · intro y hy
    rw [hmap] at hy
    obtain ⟨c, hc, rfl⟩ := List.mem_map.mp hy
    exact ⟨c, hc, rfl, (chunkPeak_spec c (rchunks_ne_nil _ hbpos _ c hc)).1⟩
  · intro y hy
    rw [hmap] at hy
    obtain ⟨c, hc, rfl⟩ := List.mem_map.mp hy
    exact rchunks_subset _ _ c hc _ ((chunkPeak_spec c (rchunks_ne_nil _ hbpos _ c hc)).1)
  · intro hbuf
    subst hbuf
    rw [hmap]
    rfl

/-- C10, witness: the summary -1 emitted for the buffer [1, -1] is one of the
buffer's samples. -/
theorem c10_witness : (-1 : ℚ) ∈ [(1 : ℚ), -1] :=
  (c10_no_synthesized_summary [(1 : ℚ), -1] 1 (some 1) [-1]
      (by with_unfolding_all decide)).2.1
    (-1) (by with_unfolding_all decide)

/-- Helper: the maximum absolute value scaled by the multiplier is at most 1
(equal to 1 in the non-degenerate case, 0 in the all-silence case). -/
theorem v2MaxAbs_mul_multiplier_le_one (l : List ℚ) :
    v2MaxAbs l * v2Multiplier l ≤ 1 := by
  unfold v2Multiplier
  split
  · rename_i h
    rw [mul_one_div, div_self h]
  · rename_i h
    rw [not_not] at h
    rw [h, zero_mul]
    exact zero_le_one

/-- Helper: multiplying by a positive constant preserves sign, zero and
positivity. -/
theorem sign_iff_of_pos_right (z m : ℚ) (hm : 0 < m) :
    (z < 0 ↔ z * m < 0) ∧ (z = 0 ↔ z * m = 0) ∧ (0 < z ↔ 0 < z * m) := by
  refine ⟨⟨fun h => mul_neg_of_neg_of_pos h hm, fun h => ?_⟩,
    ⟨fun h => by rw [h, zero_mul], fun h => ?_⟩,
    ⟨fun h => mul_pos h hm, fun h => ?_⟩⟩
  · by_contra h2
    push_neg at h2
    exact absurd (mul_nonneg h2 hm.le) (not_le.mpr h)
  · rcases mul_eq_zero.mp h with h | h
    · exact h
    · exact absurd h hm.ne'
  · by_contra h2
    push_neg at h2
    have : z * m ≤ 0 := by nlinarith
    exact absurd this (not_le.mpr h)

/-- C5: for the Variant 1 normalizer on a sequence of non-negative block
summaries (means of absolute values are always non-negative): if the maximum
entry is nonzero, every output lies in [0, 1] and at least one output equals 1;
if the maximum entry is zero the output equals the input; and in every case
output i is input i times the single global multiplier. -/
theorem c5_normalize_v1 (l : List ℚ) (hnn : ∀ x ∈ l, 0 ≤ x) :
    (∀ m, v1Max l = some m → m ≠ 0 →
      (∀ y ∈ normalize_data l, 0 ≤ y ∧ y ≤ 1) ∧ (1 : ℚ) ∈ normalize_data l) ∧
    (∀ m, v1Max l = some m → m = 0 → normalize_data l = l) ∧
    (∀ i (h1 : i < l.length) (h2 : i < (normalize_data l).length),
      (normalize_data l).get ⟨i, h2⟩ = l.get ⟨i, h1⟩ * v1Multiplier l) := by
  refine ⟨?_, ?_, ?_⟩
  · intro m hm hm0
    cases l with
    | nil => exact absurd hm (by simp [v1Max])
    | cons x xs =>
      have hmx : m = xs.foldl max x := by
        have := hm
        unfold v1Max at this
        exact (Option.some.inj this).symm
      have hmem : m ∈ x :: xs := hmx ▸ foldl_max_mem x xs
      have hle : ∀ y ∈ x :: xs, y ≤ m := by
        intro y hy
        rw [hmx]
        exact le_foldl_max x xs y hy
      have hmpos : 0 < m := lt_of_le_of_ne (hnn m hmem) (Ne.symm hm0)
      have hmult : v1Multiplier (x :: xs) = 1 / m := by
        unfold v1Multiplier
        rw [hm]
        simp [hm0]
      constructor
      · intro y hy
        obtain ⟨z, hz, rfl⟩ := List.mem_map.mp hy
        rw [hmult]
        constructor
        · exact mul_nonneg (hnn z hz) (by positivity)
        · rw [mul_one_div]
          exact (div_le_one hmpos).mpr (hle z hz)
      · refine List.mem_map.mpr ⟨m, hmem, ?_⟩
        rw [hmult, mul_one_div, div_self hm0]
  · intro m hm hm0
    have hmult : v1Multiplier l = 1 := by
      unfold v1Multiplier
      rw [hm, hm0]
      simp
    unfold normalize_data
    rw [hmult]
    simp
  · intro i h1 h2
    simp [normalize_data, List.get_eq_getElem]

/-- C5, witness at the concrete non-negative summary sequence [0, 2]. -/
theorem c5_witness : (1 : ℚ) ∈ normalize_data [0, 2] :=
  ((c5_normalize_v1 [0, 2] (by with_unfolding_all decide)).1 2
    (by with_unfolding_all decide) (by with_unfolding_all decide)).2

/-- C6: for the Variant 2 normalizer on any block-summary sequence: every
output lies in [-1, 1]; when the maximum absolute entry is nonzero at least one
output has absolute value 1; the global multiplier is positive, each output is
its input times that multiplier, and hence each output's sign (negative, zero,
positive) matches its input's. -/
theorem c6_normalize_v2 (l : List ℚ) :
    (∀ y ∈ normalize_data_v2 l, -1 ≤ y ∧ y ≤ 1) ∧
    (v2MaxAbs l ≠ 0 → ∃ y ∈ normalize_data_v2 l, |y| = 1) ∧
    (0 < v2Multiplier l ∧
      ∀ i (h1 : i < l.length) (h2 : i < (normalize_data_v2 l).length),
        (normalize_data_v2 l).get ⟨i, h2⟩ = l.get ⟨i, h1⟩ * v2Multiplier l ∧
        ((l.get ⟨i, h1⟩ < 0 ↔ (normalize_data_v2 l).get ⟨i, h2⟩ < 0) ∧
         (l.get ⟨i, h1⟩ = 0 ↔ (normalize_data_v2 l).get ⟨i, h2⟩ = 0) ∧
         (0 < l.get ⟨i, h1⟩ ↔ 0 < (normalize_data_v2 l).get ⟨i, h2⟩))) := by
  have hmpos : 0 < v2Multiplier l := v2Multiplier_pos l
  refine ⟨?_, ?_, hmpos, ?_⟩
  · intro y hy
    obtain ⟨z, hz, rfl⟩ := List.mem_map.mp hy
    have habs : |z * v2Multiplier l| ≤ 1 := by
      rw [abs_mul, abs_of_pos hmpos]
      calc |z| * v2Multiplier l
          ≤ v2MaxAbs l * v2Multiplier l :=
            mul_le_mul_of_nonneg_right (abs_le_v2MaxAbs l z hz) hmpos.le
        _ ≤ 1 := v2MaxAbs_mul_multiplier_le_one l
    exact abs_le.mp habs
  · intro hM
    obtain ⟨y0, hy0, habs0⟩ := v2MaxAbs_attained l hM
    refine ⟨y0 * v2Multiplier l, List.mem_map.mpr ⟨y0, hy0, rfl⟩, ?_⟩
    rw [abs_mul, abs_of_pos hmpos, habs0]
    unfold v2Multiplier
    rw [if_pos hM, mul_one_div, div_self hM]
  · intro i h1 h2
    have hget : (normalize_data_v2 l).get ⟨i, h2⟩ = l.get ⟨i, h1⟩ * v2Multiplier l := by
      simp [normalize_data_v2, List.get_eq_getElem]
    refine ⟨hget, ?_⟩
    rw [hget]
    exact sign_iff_of_pos_right _ _ hmpos

/-- C6, witness at the concrete summary sequence [2, -1]. -/
theorem c6_witness : ∃ y ∈ normalize_data_v2 [2, -1], |y| = 1 :=
  (c6_normalize_v2 [2, -1]).2.1 (by with_unfolding_all decide)

/-- C7: a decoded frame of the selected track reporting more than 2 channels
fails the whole loop immediately with the unsupported-channel-layout error (its
samples are never appended: the loop aborts with an error, returning no
buffer); and if every decoded frame of the selected track has at most 2
channels, the loop never produces that error. -/
theorem c7_channel_guard :
    (∀ (tid : Nat) (rest : List PacketEvent) (count : Nat) (buf : List ℚ)
        (ch cap : Nat) (smp : List ℚ), 2 < ch →
      readLoop tid (PacketEvent.packet tid (DecodeEvent.ok ch cap smp) :: rest) count buf
        = .error "More than two channels not supported") ∧
    (∀ (tid : Nat) (events : List PacketEvent) (count : Nat) (buf : List ℚ),
      (∀ ch cap smp, PacketEvent.packet tid (DecodeEvent.ok ch cap smp) ∈ events → ch ≤ 2) →
      readLoop tid events count buf ≠ .error "More than two channels not supported") := by
  constructor
  · intro tid rest count buf ch cap smp h
    simp [readLoop, h]
  · intro tid events
    induction events with
    | nil =>
      intro count buf _hall
      simp [readLoop]
    | cons ev rest ih =>
      intro count buf hall
      cases ev with
      | resetRequired =>
        simp only [readLoop]
        intro hcontra
        exact absurd (Except.error.inj hcontra) (by decide)
      | ioError =>
        simp [readLoop]
      | otherError e =>
        simp only [readLoop]
        intro hcontra
        exact readPacketErr_ne e (Except.error.inj hcontra)
      | packet tid2 dec =>
        by_cases htid : tid2 ≠ tid
        · simp only [readLoop, if_pos htid]
          exact ih count buf fun ch cap smp hmem =>
            hall ch cap smp (List.mem_cons_of_mem _ hmem)
        · have htid2 : tid2 = tid := not_not.mp htid
          subst htid2
          cases dec with
          | ok ch cap smp =>
            have hch : ch ≤ 2 := hall ch cap smp (List.mem_cons_self _ _)
            have hch2 : ¬(ch > 2) := by omega
            simp only [readLoop, if_neg htid, if_neg hch2]
            exact ih _ _ fun ch' cap' smp' hmem =>
              hall ch' cap' smp' (List.mem_cons_of_mem _ hmem)
          | ioError =>
            simp [readLoop, if_neg htid]
          | otherError e =>
            simp only [readLoop, if_neg htid]
            intro hcontra
            exact decodeErr_ne e (Except.error.inj hcontra)

/-- C7, witness: a 3-channel frame for the selected track fails the loop with
the unsupported-channel-layout error. -/
theorem c7_witness :
    readLoop 0 [PacketEvent.packet 0 (DecodeEvent.ok 3 4 [])] 0 []
      = .error "More than two channels not supported" :=
  c7_channel_guard.1 0 [] 0 [] 3 4 [] (by omega)

/-- C8: the packet-loop termination policy.  An I/O error while reading the
next packet, or while decoding a packet of the selected track, ends the loop
normally with the state accumulated so far; a reset-required signal fails the
loop; any other packet-read or decode error fails the loop with a descriptive
message; and `read_sample` turns the loop's success (count, buffer) into
`Ok (buffer, count / sample_rate)` and the loop's error into the call's error. -/
theorem c8_stream_termination :
    (∀ (tid : Nat) (rest : List PacketEvent) (count : Nat) (buf : List ℚ),
      readLoop tid (PacketEvent.ioError :: rest) count buf = .ok (count, buf)) ∧
    (∀ (tid : Nat) (rest : List PacketEvent) (count : Nat) (buf : List ℚ),
      readLoop tid (PacketEvent.packet tid DecodeEvent.ioError :: rest) count buf
        = .ok (count, buf)) ∧
    (∀ (tid : Nat) (rest : List PacketEvent) (count : Nat) (buf : List ℚ),
      readLoop tid (PacketEvent.resetRequired :: rest) count buf
        = .error "Reset required, not implemented") ∧
    (∀ (tid : Nat) (rest : List PacketEvent) (count : Nat) (buf : List ℚ) (e : String),
      readLoop tid (PacketEvent.otherError e :: rest) count buf
        = .error ("Error reading packet: " ++ e)) ∧
    (∀ (tid : Nat) (rest : List PacketEvent) (count : Nat) (buf : List ℚ) (e : String),
      readLoop tid (PacketEvent.packet tid (DecodeEvent.otherError e) :: rest) count buf
        = .error ("Error decoding packet: " ++ e)) ∧
    (∀ (input : MediaInput) (fmt : ProbedFormat) (track : Track) (rate : Nat),
      input.probe = .ok fmt →
      fmt.tracks.find? (fun t => t.codec != CODEC_TYPE_NULL) = some track →
      input.decoderBuild = .ok () →
      track.sampleRate = some rate →
      (∀ (count : Nat) (abuf : List ℚ),
        readLoop track.id fmt.packets 0 [] = .ok (count, abuf) →
        read_sample input = .ok (abuf, (count : ℚ) / (rate : ℚ))) ∧
      (∀ e, readLoop track.id fmt.packets 0 [] = .error e →
        read_sample input = .err e)) := by
  refine ⟨?_, ?_, ?_, ?_, ?_, ?_⟩
  · intro tid rest count buf
    simp [readLoop]
  · intro tid rest count buf
    simp [readLoop]
  · intro tid rest count buf
    simp [readLoop]
  · intro tid rest count buf e
    simp [readLoop]
  · intro tid rest count buf e
    simp [readLoop]
  · intro input fmt track rate h1 h2 h3 h4
    constructor
    · intro count abuf hloop
      simp [read_sample, h1, h2, h3, h4, hloop]
    · intro e hloop
      simp [read_sample, h1, h2, h3, h4, hloop]

/-- C8, witness: the ten-sample input ends with a packet-read I/O error; the
call succeeds with the accumulated buffer and duration 10 / 10 seconds. -/
theorem c8_witness :
    read_sample tenOnesInput = .ok (tenOnes, (10 : ℚ) / (10 : ℚ)) :=
  ((c8_stream_termination.2.2.2.2.2 tenOnesInput
      { tracks := [{ id := 0, codec := 1, sampleRate := some 10 }]
        packets := [PacketEvent.packet 0 (DecodeEvent.ok 1 10 tenOnes),
                    PacketEvent.ioError] }
      { id := 0, codec := 1, sampleRate := some 10 } 10
      rfl (by with_unfolding_all decide)
      rfl rfl).1 10 tenOnes rfl)

end Waveform
